/-
Verification of the Pomodoro focus-cycle timer implemented in
`src/app.jsx` (`FerramentasPage`).

The source keeps four pieces of component state:
  `timeLeft` (seconds remaining), `phase` ("work" | "shortBreak" |
  "longBreak"), `cycle` (positive counter starting at 1) and `running`.
A 1-second interval callback decrements `timeLeft` while positive and
otherwise performs the phase transition; `start`, a pause button and
`reset` toggle/clear the state.  The display derives zero-padded
minute/second strings with `Math.floor(timeLeft / 60)`, `timeLeft % 60`
and `String.padStart(2, "0")`.

Below, that component state is embedded as a `TimerSession` value and the
interval callback as the pure function `tick`; `run n` iterates `tick`
`n` times, modelling `n` seconds of driver callbacks.
-/
import Mathlib

set_option maxHeartbeats 1000000

/-- Source constant `workDuration = 25 * 60`. -/
def workDuration : Nat := 25 * 60

/-- Source constant `shortBreak = 5 * 60`. -/
def shortBreak : Nat := 5 * 60

/-- Source constant `longBreak = 15 * 60`. -/
def longBreak : Nat := 15 * 60

/-- The phase strings `"work"`, `"shortBreak"`, `"longBreak"` used by the
source component. -/
inductive Phase where
  | work
  | shortBreak
  | longBreak
deriving DecidableEq, Repr

/-- The component state of `FerramentasPage`: the four `useState` hooks
`timeLeft`, `phase`, `cycle`, `running`. -/
structure TimerSession where
  phase : Phase
  timeLeft : Nat
  cycle : Nat
  running : Bool
deriving DecidableEq, Repr

/-- The initial component state: `useState(workDuration)`,
`useState("work")`, `useState(1)`, `useState(false)`. -/
def initSession : TimerSession :=
  { phase := Phase.work, timeLeft := workDuration, cycle := 1, running := false }

/-- One firing of the interval callback.  The interval only exists while
`running` is true (`if (!running) return;` in the effect), so with
`running = false` the state is unchanged.  Otherwise, the source runs
`setTimeLeft((prev) => { if (prev > 0) return prev - 1; ... })` with the
phase/cycle updates of the transition branch. -/
def tick (s : TimerSession) : TimerSession :=
  if s.running then
    if 0 < s.timeLeft then
      { s with timeLeft := s.timeLeft - 1 }
    else
      match s.phase with
      | Phase.work =>
          if s.cycle % 4 = 0 then
            { s with phase := Phase.longBreak, timeLeft := longBreak }
          else
            { s with phase := Phase.shortBreak, timeLeft := shortBreak }
      | _ =>
          { s with phase := Phase.work, timeLeft := workDuration,
                   cycle := s.cycle + 1 }
  else s

/-- Source operation `start`: `() => setRunning(true)`. -/
def start (s : TimerSession) : TimerSession :=
  { s with running := true }

/-- The pause button: `onClick={() => setRunning(false)}`. -/
def pause (s : TimerSession) : TimerSession :=
  { s with running := false }

/-- Source operation `reset`: `setRunning(false); setPhase("work");
setCycle(1); setTimeLeft(workDuration);`. -/
def reset (s : TimerSession) : TimerSession :=
  { s with running := false, phase := Phase.work, cycle := 1,
           timeLeft := workDuration }

/-- JavaScript `String.prototype.padStart(targetLength, pad)` for a
single-character pad string: prepend copies of `c` until the length
reaches `targetLength`; a string at least that long is returned
unchanged (never truncated). -/
def padStart (s : String) (targetLength : Nat) (c : Char) : String :=
  String.mk (List.replicate (targetLength - s.length) c) ++ s

/-- The derived display pair:
`String(Math.floor(timeLeft / 60)).padStart(2, "0")` and
`String(timeLeft % 60).padStart(2, "0")`. -/
def display (s : TimerSession) : String × String :=
  (padStart (Nat.repr (s.timeLeft / 60)) 2 '0',
   padStart (Nat.repr (s.timeLeft % 60)) 2 '0')

/-- Iterated ticking: `run n s` applies the interval callback `n`
times, that is, `n` seconds of the periodic driver. -/
def run : Nat → TimerSession → TimerSession
  | 0, s => s
  | n + 1, s => run n (tick s)

/-- Whether a phase is one of the two break phases. -/
def isBreak : Phase → Bool
  | Phase.work => false
  | Phase.shortBreak => true
  | Phase.longBreak => true

/-- Over `n` ticks from `s`, the value of `cycle` immediately before each
tick that changes the phase. -/
def transitionCycles : Nat → TimerSession → List Nat
  | 0, _ => []
  | n + 1, s =>
      (if (tick s).phase ≠ s.phase then [s.cycle] else []) ++
        transitionCycles n (tick s)

/-- Over `n` ticks from `s`, the value of `cycle` immediately before each
tick that transitions the phase into a break (phase was not a break
before and is a break after). -/
def breakEntryCycles : Nat → TimerSession → List Nat
  | 0, _ => []
  | n + 1, s =>
      (if isBreak (tick s).phase && !(isBreak s.phase) then [s.cycle] else []) ++
        breakEntryCycles n (tick s)

/-- States reachable from the initial component state through the public
operations. -/
inductive Reachable : TimerSession → Prop where
  | init : Reachable initSession
  | of_start {s} : Reachable s → Reachable (start s)
  | of_pause {s} : Reachable s → Reachable (pause s)
  | of_reset {s} : Reachable s → Reachable (reset s)
  | of_tick {s} : Reachable s → Reachable (tick s)

/-- The full duration of each phase, as named by the specification:
1500 s of work, 300 s of short break, 900 s of long break. -/
def phaseDuration : Phase → Nat
  | Phase.work => workDuration
  | Phase.shortBreak => shortBreak
  | Phase.longBreak => longBreak

/-- The specification's wording for the display components: the decimal
numeral zero-padded to two digits.  Stated independently of the source's
`padStart` so the two can be compared. -/
def specZeroPad2 (n : Nat) : String :=
  if n < 10 then "0" ++ Nat.repr n else Nat.repr n

/- ### Helper lemmas -/

theorem tick_not_running {s : TimerSession} (h : s.running = false) :
    tick s = s := by
  simp [tick, h]

theorem tick_pos {p : Phase} {t c : Nat} (h : 0 < t) :
    tick ⟨p, t, c, true⟩ = ⟨p, t - 1, c, true⟩ := by
  simp [tick, h]

theorem run_add (a b : Nat) (s : TimerSession) :
    run (a + b) s = run b (run a s) := by
  induction a generalizing s with
  | zero => simp [run]
  | succ a ih =>
      have : a + 1 + b = (a + b) + 1 := by omega
      rw [this]
      show run (a + b) (tick s) = run b (run a (tick s))
      exact ih (tick s)

theorem run_dec {p : Phase} {c : Nat} :
    ∀ k t : Nat, k ≤ t → run k ⟨p, t, c, true⟩ = ⟨p, t - k, c, true⟩ := by
  intro k
  induction k with
  | zero => intro t _; simp [run]
  | succ k ih =>
      intro t hk
      have ht : 0 < t := by omega
      show run k (tick ⟨p, t, c, true⟩) = _
      rw [tick_pos ht, ih (t - 1) (by omega)]
      have : t - 1 - k = t - (k + 1) := by omega
      rw [this]

theorem transitionCycles_add (a b : Nat) (s : TimerSession) :
    transitionCycles (a + b) s =
      transitionCycles a s ++ transitionCycles b (run a s) := by
  induction a generalizing s with
  | zero => simp [transitionCycles, run]
  | succ a ih =>
      have : a + 1 + b = (a + b) + 1 := by omega
      rw [this]
      show (if (tick s).phase ≠ s.phase then [s.cycle] else []) ++
          transitionCycles (a + b) (tick s) = _
      rw [ih (tick s)]
      show _ = ((if (tick s).phase ≠ s.phase then [s.cycle] else []) ++
          transitionCycles a (tick s)) ++ transitionCycles b (run a (tick s))
      rw [List.append_assoc]

theorem breakEntryCycles_add (a b : Nat) (s : TimerSession) :
    breakEntryCycles (a + b) s =
      breakEntryCycles a s ++ breakEntryCycles b (run a s) := by
  induction a generalizing s with
  | zero => simp [breakEntryCycles, run]
  | succ a ih =>
      have : a + 1 + b = (a + b) + 1 := by omega
      rw [this]
      show (if isBreak (tick s).phase && !(isBreak s.phase) then [s.cycle] else []) ++
          breakEntryCycles (a + b) (tick s) = _
      rw [ih (tick s)]
      show _ = ((if isBreak (tick s).phase && !(isBreak s.phase) then [s.cycle] else []) ++
          breakEntryCycles a (tick s)) ++ breakEntryCycles b (run a (tick s))
      rw [List.append_assoc]

theorem transitionCycles_dec {p : Phase} {c : Nat} :
    ∀ k t : Nat, k ≤ t → transitionCycles k ⟨p, t, c, true⟩ = [] := by
  intro k
  induction k with
  | zero => intro t _; simp [transitionCycles]
  | succ k ih =>
      intro t hk
      have ht : 0 < t := by omega
      show (if (tick ⟨p, t, c, true⟩).phase ≠ p then _ else []) ++
          transitionCycles k (tick ⟨p, t, c, true⟩) = []
      rw [tick_pos ht]
      simp [ih (t - 1) (by omega)]

theorem breakEntryCycles_dec {p : Phase} {c : Nat} :
    ∀ k t : Nat, k ≤ t → breakEntryCycles k ⟨p, t, c, true⟩ = [] := by
  intro k
  induction k with
  | zero => intro t _; simp [breakEntryCycles]
  | succ k ih =>
      intro t hk
      have ht : 0 < t := by omega
      show (if isBreak (tick ⟨p, t, c, true⟩).phase && !(isBreak p) then _ else []) ++
          breakEntryCycles k (tick ⟨p, t, c, true⟩) = []
      rw [tick_pos ht]
      simp [ih (t - 1) (by omega)]

/-- A whole phase block: from the top of a phase of duration `t`, `t + 1`
ticks first count down to zero and then perform the single transition
tick. -/
theorem run_block (p : Phase) (c t : Nat) :
    run (t + 1) ⟨p, t, c, true⟩ = tick ⟨p, 0, c, true⟩ := by
  rw [run_add t 1, run_dec t t (le_refl t)]
  simp [run]

theorem transitionCycles_block (p : Phase) (c t : Nat) :
    transitionCycles (t + 1) ⟨p, t, c, true⟩ =
      transitionCycles 1 ⟨p, 0, c, true⟩ := by
  rw [transitionCycles_add t 1, transitionCycles_dec t t (le_refl t),
      run_dec t t (le_refl t)]
  simp

theorem breakEntryCycles_block (p : Phase) (c t : Nat) :
    breakEntryCycles (t + 1) ⟨p, t, c, true⟩ =
      breakEntryCycles 1 ⟨p, 0, c, true⟩ := by
  rw [breakEntryCycles_add t 1, breakEntryCycles_dec t t (le_refl t),
      run_dec t t (le_refl t)]
  simp

theorem cycle_le_tick (s : TimerSession) : s.cycle ≤ (tick s).cycle := by
  rcases s with ⟨p, t, c, r⟩
  cases r
  · simp [tick]
  · by_cases ht : 0 < t
    · simp [tick, ht]
    · cases p
      · by_cases hc : c % 4 = 0
        · simp [tick, ht, hc]
        · simp [tick, ht, hc]
      · simp [tick, ht]
      · simp [tick, ht]

theorem cycle_le_run (n : Nat) (s : TimerSession) :
    s.cycle ≤ (run n s).cycle := by
  induction n generalizing s with
  | zero => simp [run]
  | succ n ih =>
      show s.cycle ≤ (run n (tick s)).cycle
      exact le_trans (cycle_le_tick s) (ih (tick s))

theorem cycle_mono {m n : Nat} (s : TimerSession) (h : m ≤ n) :
    (run m s).cycle ≤ (run n s).cycle := by
  have : n = m + (n - m) := by omega
  rw [this, run_add]
  exact cycle_le_run (n - m) (run m s)

/- ### C1: the tick transition with `running = true` -/

/-- C1.  With `running = true`, a single `tick()` decrements a positive
`timeLeft` by one and changes nothing else; at `timeLeft = 0` in `work`
it moves to `longBreak`/900 when `cycle % 4 = 0`, otherwise
`shortBreak`/300, leaving `cycle` unchanged; at `timeLeft = 0` in a
break it moves to `work`/1500 and increments `cycle`. -/
theorem tick_transition_rule (s : TimerSession) (h : s.running = true) :
    (0 < s.timeLeft →
      tick s = ⟨s.phase, s.timeLeft - 1, s.cycle, true⟩) ∧
    (s.timeLeft = 0 → s.phase = Phase.work →
      (s.cycle % 4 = 0 → tick s = ⟨Phase.longBreak, 900, s.cycle, true⟩) ∧
      (s.cycle % 4 ≠ 0 → tick s = ⟨Phase.shortBreak, 300, s.cycle, true⟩)) ∧
    (s.timeLeft = 0 →
      (s.phase = Phase.shortBreak ∨ s.phase = Phase.longBreak) →
      tick s = ⟨Phase.work, 1500, s.cycle + 1, true⟩) := by
  rcases s with ⟨p, t, c, r⟩
  subst h
  refine ⟨fun ht => by simp [tick, ht], fun ht hp => ?_, fun ht hp => ?_⟩
  · subst ht; subst hp
    constructor <;> intro hc <;> simp [tick, hc, longBreak, shortBreak]
  · subst ht
    rcases hp with hp | hp <;> subst hp <;> simp [tick, workDuration]

theorem tick_transition_rule_witness :
    tick ⟨Phase.work, 5, 1, true⟩ = ⟨Phase.work, 4, 1, true⟩ :=
  (tick_transition_rule ⟨Phase.work, 5, 1, true⟩ rfl).1 (by decide)

/- ### C3: reset -/

/-- C3.  `reset()` produces exactly `(work, 1500, 1, running = false)`
from every state. -/
theorem reset_result (s : TimerSession) :
    reset s = ⟨Phase.work, 1500, 1, false⟩ := by
  rfl

/- ### C7: start and pause frame conditions and idempotence -/

/-- C7.  `start()` only sets `running := true` and `pause()` only sets
`running := false`; neither touches `phase`, `timeLeft` or `cycle`, and
both are idempotent. -/
theorem start_pause_frame (s : TimerSession) :
    (start s).phase = s.phase ∧ (start s).timeLeft = s.timeLeft ∧
    (start s).cycle = s.cycle ∧ (start s).running = true ∧
    start (start s) = start s ∧
    (pause s).phase = s.phase ∧ (pause s).timeLeft = s.timeLeft ∧
    (pause s).cycle = s.cycle ∧ (pause s).running = false ∧
    pause (pause s) = pause s := by
  simp [start, pause]

/- ### C8: tick with `running = false` is a no-op -/

/-- C8.  With `running = false` a `tick()` changes no field at all. -/
theorem tick_paused_noop (s : TimerSession) (h : s.running = false) :
    tick s = s :=
  tick_not_running h

theorem tick_paused_noop_witness :
    tick ⟨Phase.work, 1500, 1, false⟩ = ⟨Phase.work, 1500, 1, false⟩ :=
  tick_paused_noop ⟨Phase.work, 1500, 1, false⟩ rfl

/- ### C2: reachable-state invariant -/

theorem reset_eq (s : TimerSession) :
    reset s = ⟨Phase.work, 1500, 1, false⟩ := rfl

theorem tick_preserves_bounds {s : TimerSession}
    (h : s.timeLeft ≤ phaseDuration s.phase ∧ 1 ≤ s.cycle) :
    (tick s).timeLeft ≤ phaseDuration (tick s).phase ∧ 1 ≤ (tick s).cycle := by
  rcases s with ⟨p, t, c, r⟩
  obtain ⟨h1, h2⟩ := h
  cases r
  · simpa [tick] using ⟨h1, h2⟩
  · by_cases ht : 0 < t
    · rw [tick_pos ht]
      exact ⟨le_trans (Nat.sub_le t 1) h1, h2⟩
    · have ht0 : t = 0 := by omega
      subst ht0
      cases p
      · by_cases hc : c % 4 = 0
        · have he : tick ⟨Phase.work, 0, c, true⟩ =
              ⟨Phase.longBreak, longBreak, c, true⟩ := by simp [tick, hc]
          rw [he]
          exact ⟨le_refl _, h2⟩
        · have he : tick ⟨Phase.work, 0, c, true⟩ =
              ⟨Phase.shortBreak, shortBreak, c, true⟩ := by simp [tick, hc]
          rw [he]
          exact ⟨le_refl _, h2⟩
      · have he : tick ⟨Phase.shortBreak, 0, c, true⟩ =
            ⟨Phase.work, workDuration, c + 1, true⟩ := by simp [tick]
        rw [he]
        exact ⟨le_refl _, Nat.succ_le_succ (Nat.zero_le c)⟩
      · have he : tick ⟨Phase.longBreak, 0, c, true⟩ =
            ⟨Phase.work, workDuration, c + 1, true⟩ := by simp [tick]
        rw [he]
        exact ⟨le_refl _, Nat.succ_le_succ (Nat.zero_le c)⟩

theorem reachable_bounds {s : TimerSession} (h : Reachable s) :
    s.timeLeft ≤ phaseDuration s.phase ∧ 1 ≤ s.cycle := by
  induction h with
  | init => exact ⟨by decide, by decide⟩
  | of_start _ ih => simpa [start, phaseDuration] using ih
  | of_pause _ ih => simpa [pause, phaseDuration] using ih
  | of_reset h _ => rw [reset_eq]; exact ⟨by decide, by decide⟩
  | of_tick _ ih => exact tick_preserves_bounds ih

/-- C2.  In every state reachable from the initial state through
`start`, `pause`, `reset` and `tick`, the remaining time lies in
`[0, phaseDuration phase]` and the cycle counter is at least 1. -/
theorem reachable_invariant (s : TimerSession) (h : Reachable s) :
    0 ≤ s.timeLeft ∧ s.timeLeft ≤ phaseDuration s.phase ∧ 1 ≤ s.cycle :=
  ⟨Nat.zero_le _, reachable_bounds h⟩

theorem reachable_invariant_witness :
    0 ≤ initSession.timeLeft ∧
    initSession.timeLeft ≤ phaseDuration initSession.phase ∧
    1 ≤ initSession.cycle :=
  reachable_invariant initSession Reachable.init

/- ### C6: cycle counter monotonicity and step characterization -/

/-- C6.  Across tick sequences the cycle counter never decreases, and a
single tick increments it by exactly 1 precisely when that tick moves
the phase from a break back to `work`; every other tick leaves it
unchanged. -/
theorem cycle_step_characterization (s : TimerSession) :
    ((tick s).cycle = s.cycle + 1 ↔
      ((s.phase = Phase.shortBreak ∨ s.phase = Phase.longBreak) ∧
        (tick s).phase = Phase.work)) ∧
    (¬((s.phase = Phase.shortBreak ∨ s.phase = Phase.longBreak) ∧
        (tick s).phase = Phase.work) →
      (tick s).cycle = s.cycle) ∧
    (∀ m n : Nat, m ≤ n → (run m s).cycle ≤ (run n s).cycle) := by
  refine ⟨?_, ?_, fun m n h => cycle_mono s h⟩ <;>
  · rcases s with ⟨p, t, c, r⟩
    cases r
    · cases p <;> simp [tick]
    · by_cases ht : 0 < t
      · cases p <;> simp [tick, ht]
      · cases p
        · by_cases hc : c % 4 = 0 <;> simp [tick, ht, hc]
        · simp [tick, ht]
        · simp [tick, ht]

theorem cycle_step_characterization_witness :
    (tick ⟨Phase.shortBreak, 0, 1, true⟩).cycle = 2 :=
  (cycle_step_characterization ⟨Phase.shortBreak, 0, 1, true⟩).1.mpr
    ⟨Or.inl rfl, by decide⟩

/- ### C4: 1500 ticks from the initial state -/

/-- C4 counterexample.  After exactly 1500 ticks from
`(work, 1500, cycle 1, running)` the state is `(work, 0, cycle 1)`, not
`(shortBreak, 300, cycle 1)`: the transition tick is the 1501st. -/
theorem run1500_counterexample :
    run 1500 ⟨Phase.work, 1500, 1, true⟩ = ⟨Phase.work, 0, 1, true⟩ ∧
    run 1500 ⟨Phase.work, 1500, 1, true⟩ ≠ ⟨Phase.shortBreak, 300, 1, true⟩ := by
  have h : run 1500 ⟨Phase.work, 1500, 1, true⟩ = ⟨Phase.work, 0, 1, true⟩ := by
    have := run_dec (p := Phase.work) (c := 1) 1500 1500 (le_refl 1500)
    simpa using this
  exact ⟨h, by rw [h]; decide⟩

/-- C4 amended.  1500 ticks from the initial running state reach
`(work, 0, cycle 1)`; the 1501st tick completes the transition to
`(shortBreak, 300, cycle 1)`. -/
theorem run1501_shortBreak :
    run 1500 ⟨Phase.work, 1500, 1, true⟩ = ⟨Phase.work, 0, 1, true⟩ ∧
    run 1501 ⟨Phase.work, 1500, 1, true⟩ = ⟨Phase.shortBreak, 300, 1, true⟩ := by
  constructor
  · have := run_dec (p := Phase.work) (c := 1) 1500 1500 (le_refl 1500)
    simpa using this
  · exact (run_block Phase.work 1 1500).trans (by decide)

/- ### Segment lemmas for whole phase blocks -/

theorem runSeg_work (c : Nat) (hc : c % 4 ≠ 0) :
    run 1501 ⟨Phase.work, 1500, c, true⟩ = ⟨Phase.shortBreak, 300, c, true⟩ :=
  (run_block Phase.work c 1500).trans (by simp [tick, hc, shortBreak])

theorem runSeg_work4 (c : Nat) (hc : c % 4 = 0) :
    run 1501 ⟨Phase.work, 1500, c, true⟩ = ⟨Phase.longBreak, 900, c, true⟩ :=
  (run_block Phase.work c 1500).trans (by simp [tick, hc, longBreak])

theorem runSeg_sb (c d : Nat) (hd : d = c + 1) :
    run 301 ⟨Phase.shortBreak, 300, c, true⟩ = ⟨Phase.work, 1500, d, true⟩ :=
  (run_block Phase.shortBreak c 300).trans (by subst hd; simp [tick, workDuration])

theorem runSeg_lb (c d : Nat) (hd : d = c + 1) :
    run 901 ⟨Phase.longBreak, 900, c, true⟩ = ⟨Phase.work, 1500, d, true⟩ :=
  (run_block Phase.longBreak c 900).trans (by subst hd; simp [tick, workDuration])

theorem tcSeg_work (c : Nat) (hc : c % 4 ≠ 0) :
    transitionCycles 1501 ⟨Phase.work, 1500, c, true⟩ = [c] :=
  (transitionCycles_block Phase.work c 1500).trans
    (by simp [transitionCycles, tick, hc])

theorem tcSeg_work4 (c : Nat) (hc : c % 4 = 0) :
    transitionCycles 1501 ⟨Phase.work, 1500, c, true⟩ = [c] :=
  (transitionCycles_block Phase.work c 1500).trans
    (by simp [transitionCycles, tick, hc])

theorem tcSeg_sb (c : Nat) :
    transitionCycles 301 ⟨Phase.shortBreak, 300, c, true⟩ = [c] :=
  (transitionCycles_block Phase.shortBreak c 300).trans
    (by simp [transitionCycles, tick])

theorem tcSeg_lb (c : Nat) :
    transitionCycles 901 ⟨Phase.longBreak, 900, c, true⟩ = [c] :=
  (transitionCycles_block Phase.longBreak c 900).trans
    (by simp [transitionCycles, tick])

theorem becSeg_work (c : Nat) (hc : c % 4 ≠ 0) :
    breakEntryCycles 1501 ⟨Phase.work, 1500, c, true⟩ = [c] :=
  (breakEntryCycles_block Phase.work c 1500).trans
    (by simp [breakEntryCycles, tick, isBreak, hc])

theorem becSeg_work4 (c : Nat) (hc : c % 4 = 0) :
    breakEntryCycles 1501 ⟨Phase.work, 1500, c, true⟩ = [c] :=
  (breakEntryCycles_block Phase.work c 1500).trans
    (by simp [breakEntryCycles, tick, isBreak, hc])

theorem becSeg_sb (c : Nat) :
    breakEntryCycles 301 ⟨Phase.shortBreak, 300, c, true⟩ = [] :=
  (breakEntryCycles_block Phase.shortBreak c 300).trans
    (by simp [breakEntryCycles, tick, isBreak])

theorem becSeg_lb (c : Nat) :
    breakEntryCycles 901 ⟨Phase.longBreak, 900, c, true⟩ = [] :=
  (breakEntryCycles_block Phase.longBreak c 900).trans
    (by simp [breakEntryCycles, tick, isBreak])

/- ### Cumulative positions along the full four-work-interval cycle -/

theorem runTo1501 :
    run 1501 ⟨Phase.work, 1500, 1, true⟩ = ⟨Phase.shortBreak, 300, 1, true⟩ :=
  runSeg_work 1 (by decide)

theorem runTo1802 :
    run 1802 ⟨Phase.work, 1500, 1, true⟩ = ⟨Phase.work, 1500, 2, true⟩ := by
  have h := run_add 1501 301 ⟨Phase.work, 1500, 1, true⟩
  rw [runTo1501, runSeg_sb 1 2 rfl] at h
  exact h

theorem runTo3303 :
    run 3303 ⟨Phase.work, 1500, 1, true⟩ = ⟨Phase.shortBreak, 300, 2, true⟩ := by
  have h := run_add 1802 1501 ⟨Phase.work, 1500, 1, true⟩
  rw [runTo1802, runSeg_work 2 (by decide)] at h
  exact h

theorem runTo3604 :
    run 3604 ⟨Phase.work, 1500, 1, true⟩ = ⟨Phase.work, 1500, 3, true⟩ := by
  have h := run_add 3303 301 ⟨Phase.work, 1500, 1, true⟩
  rw [runTo3303, runSeg_sb 2 3 rfl] at h
  exact h

theorem runTo5105 :
    run 5105 ⟨Phase.work, 1500, 1, true⟩ = ⟨Phase.shortBreak, 300, 3, true⟩ := by
  have h := run_add 3604 1501 ⟨Phase.work, 1500, 1, true⟩
  rw [runTo3604, runSeg_work 3 (by decide)] at h
  exact h

theorem runTo5406 :
    run 5406 ⟨Phase.work, 1500, 1, true⟩ = ⟨Phase.work, 1500, 4, true⟩ := by
  have h := run_add 5105 301 ⟨Phase.work, 1500, 1, true⟩
  rw [runTo5105, runSeg_sb 3 4 rfl] at h
  exact h

theorem runTo6906 :
    run 6906 ⟨Phase.work, 1500, 1, true⟩ = ⟨Phase.work, 0, 4, true⟩ := by
  have h := run_add 5406 1500 ⟨Phase.work, 1500, 1, true⟩
  rw [runTo5406, run_dec 1500 1500 (le_refl 1500)] at h
  exact h

theorem runTo6907 :
    run 6907 ⟨Phase.work, 1500, 1, true⟩ = ⟨Phase.longBreak, 900, 4, true⟩ := by
  have h := run_add 5406 1501 ⟨Phase.work, 1500, 1, true⟩
  rw [runTo5406, runSeg_work4 4 rfl] at h
  exact h

theorem runTo7807 :
    run 7807 ⟨Phase.work, 1500, 1, true⟩ = ⟨Phase.longBreak, 0, 4, true⟩ := by
  have h := run_add 6907 900 ⟨Phase.work, 1500, 1, true⟩
  rw [runTo6907, run_dec 900 900 (le_refl 900)] at h
  exact h

theorem runTo7808 :
    run 7808 ⟨Phase.work, 1500, 1, true⟩ = ⟨Phase.work, 1500, 5, true⟩ := by
  have h := run_add 6907 901 ⟨Phase.work, 1500, 1, true⟩
  rw [runTo6907, runSeg_lb 4 5 rfl] at h
  exact h

/-- Cycle values before each phase transition over the seven transitions
of the four-work-interval cycle. -/
theorem tc_full :
    transitionCycles 6907 ⟨Phase.work, 1500, 1, true⟩ = [1, 1, 2, 2, 3, 3, 4] := by
  have v7 : transitionCycles 1501 ⟨Phase.work, 1500, 4, true⟩ = [4] :=
    tcSeg_work4 4 rfl
  have v6 : transitionCycles 1802 ⟨Phase.shortBreak, 300, 3, true⟩ = [3, 4] := by
    have h := transitionCycles_add 301 1501 ⟨Phase.shortBreak, 300, 3, true⟩
    rw [tcSeg_sb 3, runSeg_sb 3 4 rfl, v7] at h
    simpa using h
  have v5 : transitionCycles 3303 ⟨Phase.work, 1500, 3, true⟩ = [3, 3, 4] := by
    have h := transitionCycles_add 1501 1802 ⟨Phase.work, 1500, 3, true⟩
    rw [tcSeg_work 3 (by decide), runSeg_work 3 (by decide), v6] at h
    simpa using h
  have v4 : transitionCycles 3604 ⟨Phase.shortBreak, 300, 2, true⟩ =
      [2, 3, 3, 4] := by
    have h := transitionCycles_add 301 3303 ⟨Phase.shortBreak, 300, 2, true⟩
    rw [tcSeg_sb 2, runSeg_sb 2 3 rfl, v5] at h
    simpa using h
  have v3 : transitionCycles 5105 ⟨Phase.work, 1500, 2, true⟩ =
      [2, 2, 3, 3, 4] := by
    have h := transitionCycles_add 1501 3604 ⟨Phase.work, 1500, 2, true⟩
    rw [tcSeg_work 2 (by decide), runSeg_work 2 (by decide), v4] at h
    simpa using h
  have v2 : transitionCycles 5406 ⟨Phase.shortBreak, 300, 1, true⟩ =
      [1, 2, 2, 3, 3, 4] := by
    have h := transitionCycles_add 301 5105 ⟨Phase.shortBreak, 300, 1, true⟩
    rw [tcSeg_sb 1, runSeg_sb 1 2 rfl, v3] at h
    simpa using h
  have h := transitionCycles_add 1501 5406 ⟨Phase.work, 1500, 1, true⟩
  rw [tcSeg_work 1 (by decide), runSeg_work 1 (by decide), v2] at h
  simpa using h

/-- Cycle values before each transition into a break over the full
four-work-interval cycle (through the end of the long break). -/
theorem bec_full :
    breakEntryCycles 7808 ⟨Phase.work, 1500, 1, true⟩ = [1, 2, 3, 4] := by
  have u8 : breakEntryCycles 901 ⟨Phase.longBreak, 900, 4, true⟩ = [] :=
    becSeg_lb 4
  have u7 : breakEntryCycles 2402 ⟨Phase.work, 1500, 4, true⟩ = [4] := by
    have h := breakEntryCycles_add 1501 901 ⟨Phase.work, 1500, 4, true⟩
    rw [becSeg_work4 4 rfl, runSeg_work4 4 rfl, u8] at h
    simpa using h
  have u6 : breakEntryCycles 2703 ⟨Phase.shortBreak, 300, 3, true⟩ = [4] := by
    have h := breakEntryCycles_add 301 2402 ⟨Phase.shortBreak, 300, 3, true⟩
    rw [becSeg_sb 3, runSeg_sb 3 4 rfl, u7] at h
    simpa using h
  have u5 : breakEntryCycles 4204 ⟨Phase.work, 1500, 3, true⟩ = [3, 4] := by
    have h := breakEntryCycles_add 1501 2703 ⟨Phase.work, 1500, 3, true⟩
    rw [becSeg_work 3 (by decide), runSeg_work 3 (by decide), u6] at h
    simpa using h
  have u4 : breakEntryCycles 4505 ⟨Phase.shortBreak, 300, 2, true⟩ = [3, 4] := by
    have h := breakEntryCycles_add 301 4204 ⟨Phase.shortBreak, 300, 2, true⟩
    rw [becSeg_sb 2, runSeg_sb 2 3 rfl, u5] at h
    simpa using h
  have u3 : breakEntryCycles 6006 ⟨Phase.work, 1500, 2, true⟩ = [2, 3, 4] := by
    have h := breakEntryCycles_add 1501 4505 ⟨Phase.work, 1500, 2, true⟩
    rw [becSeg_work 2 (by decide), runSeg_work 2 (by decide), u4] at h
    simpa using h
  have u2 : breakEntryCycles 6307 ⟨Phase.shortBreak, 300, 1, true⟩ =
      [2, 3, 4] := by
    have h := breakEntryCycles_add 301 6006 ⟨Phase.shortBreak, 300, 1, true⟩
    rw [becSeg_sb 1, runSeg_sb 1 2 rfl, u3] at h
    simpa using h
  have h := breakEntryCycles_add 1501 6307 ⟨Phase.work, 1500, 1, true⟩
  rw [becSeg_work 1 (by decide), runSeg_work 1 (by decide), u2] at h
  simpa using h

/- ### C5: the four-work-interval cycle -/

/-- C5 counterexample.  Over the full four-work-interval run (7808 ticks,
through the end of the long break), the cycle values immediately before
each transition into a break are `[1, 2, 3, 4]` — there are only four
such transitions, so they cannot follow the seven-element sequence
`1,1,2,2,3,3,4`. -/
theorem break_entry_sequence_counterexample :
    breakEntryCycles 7808 ⟨Phase.work, 1500, 1, true⟩ = [1, 2, 3, 4] ∧
    breakEntryCycles 7808 ⟨Phase.work, 1500, 1, true⟩ ≠ [1, 1, 2, 2, 3, 3, 4] := by
  refine ⟨bec_full, ?_⟩
  rw [bec_full]
  decide

/-- C5 amended.  Ticking with `running = true` from the initial state
through Work→SB→Work→SB→Work→SB→Work→LB: the cycle values immediately
before each of the seven phase transitions are `1,1,2,2,3,3,4`
(immediately before each of the four transitions into a break they are
`1,2,3,4`); the fourth work-to-break transition goes to the long break
because the cycle counter is 4 with `4 % 4 = 0` at that point; and the
counter reaches 5 only on the tick that completes the long break back
into work. -/
theorem full_cycle_sequence :
    transitionCycles 6907 ⟨Phase.work, 1500, 1, true⟩ = [1, 1, 2, 2, 3, 3, 4] ∧
    breakEntryCycles 7808 ⟨Phase.work, 1500, 1, true⟩ = [1, 2, 3, 4] ∧
    run 6906 ⟨Phase.work, 1500, 1, true⟩ = ⟨Phase.work, 0, 4, true⟩ ∧
    (4 : Nat) % 4 = 0 ∧
    run 6907 ⟨Phase.work, 1500, 1, true⟩ = ⟨Phase.longBreak, 900, 4, true⟩ ∧
    run 7808 ⟨Phase.work, 1500, 1, true⟩ = ⟨Phase.work, 1500, 5, true⟩ ∧
    ∀ k : Nat, k < 7808 → (run k ⟨Phase.work, 1500, 1, true⟩).cycle ≤ 4 := by
  refine ⟨tc_full, bec_full, runTo6906, rfl, runTo6907, runTo7808,
    fun k hk => ?_⟩
  have h := cycle_mono (m := k) (n := 7807) ⟨Phase.work, 1500, 1, true⟩ (by omega)
  rw [runTo7807] at h
  exact h

theorem full_cycle_sequence_witness :
    (run 0 ⟨Phase.work, 1500, 1, true⟩).cycle ≤ 4 :=
  full_cycle_sequence.2.2.2.2.2.2 0 (by omega)

/- ### Decimal-numeral length facts -/

theorem toDigitsCore_length_ge (b : Nat) :
    ∀ (fuel n : Nat) (ds : List Char),
      ds.length ≤ (Nat.toDigitsCore b fuel n ds).length := by
  intro fuel
  induction fuel with
  | zero => intro n ds; simp [Nat.toDigitsCore]
  | succ f ih =>
      intro n ds
      by_cases h : n / b = 0
      · simp [Nat.toDigitsCore, h]
      · simp only [Nat.toDigitsCore, h, if_false]
        exact le_trans (Nat.le_succ _) (ih (n / b) ((n % b).digitChar :: ds))

theorem toDigitsCore_length_succ (b : Nat) :
    ∀ (fuel n : Nat) (ds : List Char), 1 ≤ fuel →
      ds.length + 1 ≤ (Nat.toDigitsCore b fuel n ds).length := by
  intro fuel
  cases fuel with
  | zero => intro n ds h; omega
  | succ f =>
      intro n ds _
      by_cases h : n / b = 0
      · simp [Nat.toDigitsCore, h]
      · simp only [Nat.toDigitsCore, h, if_false]
        exact toDigitsCore_length_ge b f (n / b) ((n % b).digitChar :: ds)

theorem toDigitsCore_length_two {b : Nat} (hb : 0 < b) :
    ∀ (fuel n : Nat) (ds : List Char), 2 ≤ fuel → b ≤ n →
      ds.length + 2 ≤ (Nat.toDigitsCore b fuel n ds).length := by
  intro fuel
  cases fuel with
  | zero => intro n ds h _; omega
  | succ f =>
      intro n ds hf hn
      have h : ¬ n / b = 0 := by
        have : 1 ≤ n / b := (Nat.one_le_div_iff hb).mpr hn
        omega
      simp [Nat.toDigitsCore, h]
      have := toDigitsCore_length_succ b f (n / b)
        (Nat.digitChar (n % b) :: ds) (by omega)
      simpa using this

theorem repr_length_two {n : Nat} (h : 10 ≤ n) : 2 ≤ (Nat.repr n).length := by
  have he : Nat.repr n = (Nat.toDigitsCore 10 (n + 1) n []).asString := rfl
  rw [he]
  have : ([] : List Char).length + 2 ≤
      (Nat.toDigitsCore 10 (n + 1) n []).length :=
    toDigitsCore_length_two (by omega) (n + 1) n [] (by omega) h
  simpa using this

theorem repr_length_le_two : ∀ n : Nat, n < 100 → (Nat.repr n).length ≤ 2 := by
  decide

theorem padStart_length (s : String) :
    (padStart s 2 '0').length = (2 - s.length) + s.length := by
  unfold padStart
  rw [String.length_append, String.length_mk, List.length_replicate]

theorem padStart_eq_of_two_le {s : String} (h : 2 ≤ s.length) :
    padStart s 2 '0' = s := by
  unfold padStart
  rw [Nat.sub_eq_zero_of_le h]
  rcases s with ⟨l⟩
  rfl

theorem padStart_repr_lt_ten :
    ∀ n : Nat, n < 10 → padStart (Nat.repr n) 2 '0' = "0" ++ Nat.repr n := by
  decide

theorem padStart_repr_eq_spec (n : Nat) :
    padStart (Nat.repr n) 2 '0' = specZeroPad2 n := by
  by_cases h : n < 10
  · rw [padStart_repr_lt_ten n h]
    simp [specZeroPad2, h]
  · have h2 : 2 ≤ (Nat.repr n).length := repr_length_two (by omega)
    rw [padStart_eq_of_two_le h2]
    simp [specZeroPad2, h]

/- ### C9: the display pair -/

/-- C9.  `display` is the pure function of the state returning the
minutes `timeLeft / 60` and seconds `timeLeft % 60` as decimal numerals
zero-padded to two digits; in particular `timeLeft = 65` displays as
`("01", "05")` and `timeLeft = 0` as `("00", "00")`. -/
theorem display_zero_padded :
    (∀ s : TimerSession, display s =
      (specZeroPad2 (s.timeLeft / 60), specZeroPad2 (s.timeLeft % 60))) ∧
    (∀ (p : Phase) (c : Nat) (r : Bool),
      display ⟨p, 65, c, r⟩ = ("01", "05")) ∧
    (∀ (p : Phase) (c : Nat) (r : Bool),
      display ⟨p, 0, c, r⟩ = ("00", "00")) := by
  refine ⟨fun s => ?_, fun p c r => ?_, fun p c r => ?_⟩
  · rcases s with ⟨p, t, c, r⟩
    show (padStart (Nat.repr (t / 60)) 2 '0', padStart (Nat.repr (t % 60)) 2 '0') =
      (specZeroPad2 (t / 60), specZeroPad2 (t % 60))
    rw [padStart_repr_eq_spec, padStart_repr_eq_spec]
  · show (padStart (Nat.repr (65 / 60)) 2 '0',
        padStart (Nat.repr (65 % 60)) 2 '0') = ("01", "05")
    decide
  · show (padStart (Nat.repr (0 / 60)) 2 '0',
        padStart (Nat.repr (0 % 60)) 2 '0') = ("00", "00")
    decide

/- ### C10: display strings have length exactly two on reachable states -/

/-- C10.  On every reachable state the two display strings have length
exactly 2: the remaining time never exceeds 1500, so minutes are at most
25 and seconds at most 59, and the two-character padding is never
exceeded. -/
theorem display_length_two (s : TimerSession) (h : Reachable s) :
    (display s).1.length = 2 ∧ (display s).2.length = 2 := by
  rcases s with ⟨p, t, c, r⟩
  have hb := reachable_bounds h
  have ht : t ≤ 1500 := by
    have h1 := hb.1
    cases p <;>
      simp [phaseDuration, workDuration, shortBreak, longBreak] at h1 <;>
      omega
  have hm : t / 60 < 100 := by omega
  have hs : t % 60 < 100 := by omega
  constructor
  · show (padStart (Nat.repr (t / 60)) 2 '0').length = 2
    rw [padStart_length]
    have := repr_length_le_two (t / 60) hm
    omega
  · show (padStart (Nat.repr (t % 60)) 2 '0').length = 2
    rw [padStart_length]
    have := repr_length_le_two (t % 60) hs
    omega

theorem display_length_two_witness :
    (display initSession).1.length = 2 ∧ (display initSession).2.length = 2 :=
  display_length_two initSession Reachable.init
